import Mathlib

/-
Verification of the dynamic filter-resolution and query-compilation engine in
rest_framework_filters/filterset.py (the core of this repository).

The embedding models request parameter names as Lean `String`s (Python `str`),
ordered mappings (Python dict / OrderedDict) as association lists
`List (String × Filter)` whose update-in-place semantics is `odSet`, and the
fallible parts of the Python code (IndexError from `param[-1]` on an empty
string, KeyError from missing dict keys) as `Except PyError`.
-/

set_option maxHeartbeats 1000000

namespace RFF

/-- Errors the Python code can raise at the points we model:
`param[-1]` on an empty string raises IndexError, `d[k]` on a missing
key raises KeyError. -/
inductive PyError where
  | indexError
  | keyError
  deriving DecidableEq

/-- `django.db.models.constants.LOOKUP_SEP`, the `"__"` separator. -/
def LOOKUP_SEP : String := "__"

/-- `chStarts pat s` is true when the char list `pat` is an initial segment of
`s`; used to model Python `str.startswith`. -/
def chStarts : List Char → List Char → Bool
  | [], _ => true
  | _ :: _, [] => false
  | a :: as, b :: bs => a == b && chStarts as bs

/-- Python `s.startswith(pat)`. -/
def pyStartsWith (s pat : String) : Bool :=
  chStarts pat.data s.data

/-- Truthiness of the optional relationship argument: Python `if rel`
is false for `None` and for the empty string. -/
def relTruthy : Option String → Bool
  | none => false
  | some s => s != ""

/-- Lines 175-178 of filterset.py:
`prefix = '%s%s' % (rel or '', LOOKUP_SEP)` followed by
`if rel and param.startswith(prefix): param = param[len(prefix):]`. -/
def stripRelPfx (rel : Option String) (param : String) : String :=
  if relTruthy rel && pyStartsWith param ((rel.getD "") ++ LOOKUP_SEP) then
    ⟨param.data.drop ((rel.getD "") ++ LOOKUP_SEP).data.length⟩
  else param

/-- Modelled from the spec: the class hierarchy of
rest_framework_filters/filters.py is not under src/ (only filterset.py is).
Per the spec's data model, `AutoFilter` is the declaration-time construct and
`RelatedFilter` "denotes" an AutoFilter as well (filterset.py line 61 treats
RelatedFilter as a special case inside the auto-filter loop), while plain
filters are ordinary concrete filters. -/
inductive FilterKind where
  | plain
  | auto
  | related
  deriving DecidableEq

/-- Modelled from the spec: an AutoFilter's `lookups` attribute may be absent
(Python `None`), the ALL_LOOKUPS sentinel ("all supported for this field's
type"), or an explicit list. filterset.py line 65 applies `f.lookups or []`
and lines 100-103 replace the ALL_LOOKUPS sentinel by the per-field lookup
list. -/
inductive LookupSpec where
  | nolkps
  | all
  | list (ls : List String)
  deriving DecidableEq

/-- A filter declaration: name-independent data carried by the filter object.
`target` is the index (within a family of filterset classes) of the filterset
a RelatedFilter recurses into (`RelatedFilter.filterset`); it is unused for
non-related filters. `lookup_expr` is the concrete lookup of a generated
per-lookup filter. -/
structure Filter where
  kind : FilterKind
  field_name : String
  lookups : LookupSpec
  lookup_expr : String
  exclude : Bool
  target : Nat
  deriving DecidableEq

def isAutoFilter (f : Filter) : Bool :=
  f.kind == FilterKind.auto || f.kind == FilterKind.related

def isRelatedFilter (f : Filter) : Bool :=
  f.kind == FilterKind.related

/-- The class-level data of a FilterSet that parameter resolution reads:
`base_filters` (an ordered name-to-filter mapping) and `related_filters`
(the declared names of RelatedFilters, lines 28-30 of filterset.py). -/
structure FilterSetClass where
  base_filters : List (String × Filter)
  related_filters : List String
  deriving DecidableEq

def baseNames (cls : FilterSetClass) : List String :=
  cls.base_filters.map Prod.fst

/-- Python `param in cls.base_filters` (dict key membership). -/
def inBase (cls : FilterSetClass) (p : String) : Bool :=
  (baseNames cls).contains p

/-- Python `reversed(sorted(l))` on a list of strings (line 190). -/
def pySortDesc (l : List String) : List String :=
  (List.insertionSort (fun a b : String => a ≤ b) l).reverse

/-- Lines 180-194 of filterset.py, after the relationship prefix has been
stripped: exact match against `base_filters` first; then the exclusion
marker check `param[-1] == '!'` (which raises IndexError on an empty
param) with an exact match of `param[:-1]`; then the first relational
filter name, in reverse lexical sorted order, that prefixes the param when
followed by the separator. The fall-through returns Python `None`. -/
def gpfnCore (cls : FilterSetClass) (p : String) : Except PyError (Option String) :=
  if inBase cls p then .ok (some p)
  else if p.data.isEmpty then .error .indexError
  else if p.data.getLastD ' ' == '!' && inBase cls ⟨p.data.dropLast⟩ then
    .ok (some ⟨p.data.dropLast⟩)
  else .ok ((pySortDesc cls.related_filters).find?
    (fun n => pyStartsWith p (n ++ LOOKUP_SEP)))

/-- `FilterSet.get_param_filter_name` (filterset.py lines 151-194). -/
def get_param_filter_name (cls : FilterSetClass) (param : String)
    (rel : Option String) : Except PyError (Option String) :=
  gpfnCore cls (stripRelPfx rel param)

/-- Greatest string among `s` and the elements of the list, in the lexical
order. -/
def listMax1 : String → List String → String
  | s, [] => s
  | s, t :: rest => listMax1 (if s ≤ t then t else s) rest

/-- Greatest element of a list of strings in the lexical order, if any. -/
def listMax? : List String → Option String
  | [] => none
  | s :: rest => some (listMax1 s rest)

/-- Restatement of the spec's resolution algorithm (spec section 4.2), used to
compare with `get_param_filter_name`: strip the supplied relationship prefix,
return an exact match first, then a negation-marker match, then the greatest
(reverse-lexical-first) relational filter name that, followed by the
separator, prefixes the param; otherwise no match. -/
def resolveSpec (cls : FilterSetClass) (param : String)
    (rel : Option String) : Option String :=
  if inBase cls (stripRelPfx rel param) then some (stripRelPfx rel param)
  else if (stripRelPfx rel param).data.reverse.head? == some '!' &&
      inBase cls ⟨(stripRelPfx rel param).data.dropLast⟩ then
    some ⟨(stripRelPfx rel param).data.dropLast⟩
  else
    listMax? (cls.related_filters.filter
      (fun n => pyStartsWith (stripRelPfx rel param) (n ++ LOOKUP_SEP)))

/-- Resolve every request parameter, left to right; the first raised error
aborts, as the set comprehension on line 121 of filterset.py does. -/
def resolveAll (cls : FilterSetClass) (rel : Option String) :
    List String → Except PyError (List (Option String))
  | [] => .ok []
  | p :: ps =>
    match get_param_filter_name cls p rel, resolveAll cls rel ps with
    | .error e, _ => .error e
    | .ok _, .error e => .error e
    | .ok v, .ok vs => .ok (v :: vs)

/-- `FilterSet.get_filter_subset` (filterset.py lines 107-125): resolve every
param name, drop the `None`s, and keep exactly the `base_filters` entries
whose name was resolved, in declaration order. -/
def get_filter_subset (cls : FilterSetClass) (params : List String)
    (rel : Option String) : Except PyError (List (String × Filter)) :=
  match resolveAll cls rel params with
  | .error e => .error e
  | .ok names =>
    .ok (cls.base_filters.filter (fun kv => names.contains (some kv.1)))

/-- `related(filterset, filter_name)` (filterset.py lines 12-18): join the
instance's relationship (when truthy) to the name with the separator. -/
def relatedName (relationship : Option String) (name : String) : String :=
  if relTruthy relationship then (relationship.getD "") ++ LOOKUP_SEP ++ name
  else name

/-- First value stored under key `k` in an ordered mapping (Python `d[k]`
returns it; `lookupFilter m k = none` models a KeyError). -/
def lookupFilter : List (String × Filter) → String → Option Filter
  | [], _ => none
  | kv :: rest, k => if kv.1 == k then some kv.2 else lookupFilter rest k

/-- `FilterSet.get_request_filters` (filterset.py lines 196-217): walk the
active filters in order; every filter is kept, and when the negated
parameter name `name + "!"` (relationship-qualified) occurs in the request
data, a copy of the base filter with the `exclude` flag flipped is inserted
right after it under the negated name. `self.base_filters[filter_name]`
raises KeyError when absent. -/
def get_request_filters (base : List (String × Filter)) (data : List String)
    (relationship : Option String) :
    List (String × Filter) → Except PyError (List (String × Filter))
  | [] => .ok []
  | (n, f) :: rest =>
    if data.contains (relatedName relationship (n ++ "!")) then
      match lookupFilter base n with
      | none => .error .keyError
      | some bf =>
        match get_request_filters base data relationship rest with
        | .error e => .error e
        | .ok out =>
          .ok ((n, f) :: (n ++ "!", { bf with exclude := !f.exclude }) :: out)
    else
      match get_request_filters base data relationship rest with
      | .error e => .error e
      | .ok out => .ok ((n, f) :: out)

/-- Symbolic queryset expressions: `base` is the incoming collection and
`filterIn q lk sub` records the ORM call on lines 258-260 of filterset.py,
i.e. `q.filter` with the keyword `lk` bound to
`Subquery(sub.values('pk'))` — a containment predicate against the
correlated subquery projecting the related entity's identifier. -/
inductive QuerySetExpr where
  | base
  | filterIn (q : QuerySetExpr) (lookupExpr : String) (sub : QuerySetExpr)
  deriving DecidableEq

/-- `FilterSet.filter_related_filtersets` (filterset.py lines 245-262): fold
over the related filterset instances; one whose relationship-qualified
name followed by the separator prefixes no raw request parameter is
skipped; an active one constrains the queryset with
`field_name ++ "__in"` against the subquery of its compiled queryset.
`self.filters[related_name]` raises KeyError when absent. -/
def filter_related_filtersets (data : List String)
    (relationship : Option String) (fs : List (String × Filter)) :
    List (String × QuerySetExpr) → QuerySetExpr → Except PyError QuerySetExpr
  | [], q => .ok q
  | (rn, rqs) :: rest, q =>
    if data.any (fun v => pyStartsWith v (relatedName relationship rn ++ LOOKUP_SEP)) then
      match lookupFilter fs rn with
      | none => .error .keyError
      | some f =>
        filter_related_filtersets data relationship fs rest
          (.filterIn q (f.field_name ++ LOOKUP_SEP ++ "in") rqs)
    else filter_related_filtersets data relationship fs rest q

/-- The related filters a freshly constructed instance recurses into
(`FilterSet.get_related_filtersets`, filterset.py lines 219-238): every
class-level related filter name that survived filter subsetting, paired
with its filter (whose `target` is the nested filterset class). A
resolution error while subsetting aborts construction; this model returns
no children in that case. -/
def childrenOf (cls : FilterSetClass) (data : List String)
    (rel : Option String) : List (String × Filter) :=
  match get_filter_subset cls data rel with
  | .error _ => []
  | .ok fs => cls.related_filters.filterMap
      (fun n => (lookupFilter fs n).map (fun f => (n, f)))

/-- Fuel-bounded model of the recursive construction of related filterset
instances (filterset.py lines 87-94 and 219-238) over a family of
filterset classes: `construct fam fuel i data rel` is true when the
instance tree rooted at class `i` is fully built within depth `fuel`.
The construction in the Python code terminates on the given inputs iff
some fuel suffices. -/
def construct (fam : List FilterSetClass) :
    Nat → Nat → List String → Option String → Bool
  | 0, _, _, _ => false
  | fuel + 1, i, data, rel =>
    match fam.get? i with
    | none => true
    | some cls =>
      (childrenOf cls data rel).all
        (fun nf => construct fam fuel nf.2.target data (some (relatedName rel nf.1)))

/-- Termination of the recursive instantiation from root class `i`. -/
def ConstructTerminates (fam : List FilterSetClass) (i : Nat)
    (data : List String) (rel : Option String) : Prop :=
  ∃ fuel, construct fam fuel i data rel = true

/-- Python dict assignment `d[k] = v` on an ordered mapping: the first entry
with key `k` is replaced in place, otherwise the pair is appended. -/
def odSet : List (String × Filter) → String → Filter → List (String × Filter)
  | [], k, v => [(k, v)]
  | kv :: rest, k, v =>
    if kv.1 == k then (k, v) :: rest else kv :: odSet rest k v

/-- Python `del d[k]` on an ordered mapping. -/
def odDelete (m : List (String × Filter)) (k : String) : List (String × Filter) :=
  m.filter (fun kv => kv.1 != k)

/-- Python `d.update(upd)` on an ordered mapping. -/
def odUpdate (m upd : List (String × Filter)) : List (String × Filter) :=
  upd.foldl (fun acc kv => odSet acc kv.1 kv.2) m

/-- `replaceFirstAux old new s` rewrites the first occurrence of the
(nonempty) pattern `old` in `s` by `new`. -/
def replaceFirstAux (old new : List Char) : List Char → List Char
  | [] => []
  | c :: rest =>
    if chStarts old (c :: rest) then new ++ (c :: rest).drop old.length
    else c :: replaceFirstAux old new rest

/-- Python `s.replace(old, new, 1)` (filterset.py line 69): replace the first
occurrence of `old` by `new`; with an empty `old`, Python inserts `new` in
front of `s`. -/
def pyReplaceFirst (s old new : String) : String :=
  if old.data = [] then ⟨new.data ++ s.data⟩
  else ⟨replaceFirstAux old.data new.data s.data⟩

/-- Modelled from the spec: django_filters' generated-filter naming convention
(`get_filter_name`, not under src/) — the `exact` lookup keeps the bare
field name, any other lookup appends the separator and the lookup
(spec: `email`, `email__endswith`). -/
def filterNameFor (fieldName lookup : String) : String :=
  if lookup == "exact" then fieldName else fieldName ++ LOOKUP_SEP ++ lookup

/-- Modelled from the spec: a filter generated for one field and lookup
operator (spec section 4.1: "with field path ff and that operator"). -/
def genFilter (fieldName lookup : String) : Filter :=
  { kind := .plain, field_name := fieldName, lookups := .nolkps,
    lookup_expr := lookup, exclude := false, target := 0 }

/-- The effective lookup list of an auto filter: `f.lookups or []` on line 65
of filterset.py followed by `get_fields` (lines 96-105) replacing the
ALL_LOOKUPS sentinel by the per-field lookup list `allLk`. -/
def effLookups (allLk : String → List String) (f : Filter) : List String :=
  match f.lookups with
  | .nolkps => []
  | .all => allLk f.field_name
  | .list ls => ls

/-- Modelled from the spec: the generated part of django_filters'
`get_filters` (not under src/) — for every field and lookup in the Meta
fields, the generated name maps to the declared filter of that name when
one exists ("generated filters fill gaps only"), else to a freshly
generated filter. -/
def dfGenPart (declared : List (String × Filter))
    (metaFields : List (String × List String)) : List (String × Filter) :=
  (metaFields.flatMap (fun fl => fl.2.map (fun lk =>
    (filterNameFor fl.1 lk,
      match lookupFilter declared (filterNameFor fl.1 lk) with
      | some d => d
      | none => genFilter fl.1 lk)))).foldl
    (fun acc kv => odSet acc kv.1 kv.2) []

/-- Modelled from the spec: django_filters' `get_filters` (not under src/) —
the generated per-lookup filters, then updated with every declared filter
(declared filters are part of the schema and win; filterset.py's comment
on lines 59-60 relies on exactly this precedence). -/
def dfGetFilters (declared : List (String × Filter))
    (metaFields : List (String × List String)) : List (String × Filter) :=
  odUpdate (dfGenPart declared metaFields) declared

/-- One iteration of the auto-filter expansion loop (filterset.py lines
56-70) acting on the state (mutable copy of declared_filters,
base_filters): look the auto filter up, delete it from the declared copy
unless it is a RelatedFilter, regenerate filters for its field and
lookups, and write each generated filter into base_filters under its name
with the field name replaced by the declared name
(`gen_name.replace(f.field_name, name, 1)`). -/
def expandDcl (dcl : List (String × Filter)) (name : String) (f : Filter) :
    List (String × Filter) :=
  if isRelatedFilter f then dcl else odDelete dcl name

/-- The write list of one expansion iteration: `get_filters()` re-run with the
declared-filters copy and the meta fields of the one auto filter. -/
def expandWrites (allLk : String → List String) (dcl : List (String × Filter))
    (f : Filter) : List (String × Filter) :=
  dfGetFilters dcl [(f.field_name, effLookups allLk f)]

def expandStep (allLk : String → List String)
    (st : List (String × Filter) × List (String × Filter)) (name : String) :
    List (String × Filter) × List (String × Filter) :=
  match lookupFilter st.1 name with
  | none => st
  | some f =>
    (expandDcl st.1 name f,
      (expandWrites allLk (expandDcl st.1 name f) f).foldl
        (fun b kv => odSet b (pyReplaceFirst kv.1 f.field_name name) kv.2) st.2)

/-- The declared auto filter names, in declaration order (filterset.py lines
25-27; RelatedFilter counts as an AutoFilter). -/
def autoNamesOf (declared : List (String × Filter)) : List String :=
  (declared.filter (fun kv => isAutoFilter kv.2)).map Prod.fst

/-- `FilterSetMetaclass.expand_auto_filters` (filterset.py lines 42-73)
composed with the base-class construction of `base_filters`: start from
`dfGetFilters declared metaFields` (the mapping the django_filters
metaclass builds before expansion) and run the expansion loop over the
declared auto filter names (line 25-27: every declared filter that is an
AutoFilter, RelatedFilters included). -/
def expand_auto_filters (allLk : String → List String)
    (declared : List (String × Filter))
    (metaFields : List (String × List String)) : List (String × Filter) :=
  ((autoNamesOf declared).foldl (expandStep allLk)
    (declared, dfGetFilters declared metaFields)).2

/-- Request-scoped instance tree as far as form validation is concerned
(filterset.py lines 264-280): each node carries the instance's
`relationship`, the validation errors raised by its own form fields, and
its related filterset children (whose `relationship` the construction on
line 233 sets to `related(self, related_name)`). -/
inductive ErrTree where
  | node (relationship : Option String) (ownErrors : List (String × String))
      (children : List ErrTree)

def ErrTree.relationshipOf : ErrTree → Option String
  | .node r _ _ => r

mutual

/-- The error mapping of an instance's form after `clean` (filterset.py lines
270-279): its own errors plus, for every related filterset child, the
child's form errors re-keyed through `related(related_filterset, key)`. -/
def formErrors : ErrTree → List (String × String)
  | .node _ own cs => own ++ formErrorsChildren cs

def formErrorsChildren : List ErrTree → List (String × String)
  | [] => []
  | c :: cs =>
    (formErrors c).map (fun kv => (relatedName c.relationshipOf kv.1, kv.2)) ++
      formErrorsChildren cs

end

/-! Concrete filters, filterset classes and instance trees used to evaluate
the definitions above on the examples the spec discusses. -/

/-- A concrete non-auto filter on the given field. -/
def mkPlain (field : String) : Filter :=
  { kind := .plain, field_name := field, lookups := .nolkps,
    lookup_expr := "exact", exclude := false, target := 0 }

/-- A concrete RelatedFilter on the given field, recursing into the
filterset class at index `target`. -/
def mkRelatedF (field : String) (target : Nat) : Filter :=
  { kind := .related, field_name := field, lookups := .nolkps,
    lookup_expr := "exact", exclude := false, target := target }

/-- A concrete plain AutoFilter on the given field with the given lookups. -/
def mkAutoF (field : String) (ls : LookupSpec) : Filter :=
  { kind := .auto, field_name := field, lookups := ls,
    lookup_expr := "exact", exclude := false, target := 0 }

/-- A filterset class with relational filters named `note` and `note_author`
(spec section 8's reverse-sorted matching example). -/
def clsNote : FilterSetClass :=
  { base_filters := [("note", mkRelatedF "note" 0),
                     ("note_author", mkRelatedF "note_author" 0)],
    related_filters := ["note", "note_author"] }

/-- A filterset class with a simple `email` filter and a relational `note`
filter. -/
def clsMail : FilterSetClass :=
  { base_filters := [("email", mkPlain "email"),
                     ("note", mkRelatedF "note" 0)],
    related_filters := ["note"] }

/-- A filterset class with a relational `author` filter (spec section 8's
nested `author__email` example). -/
def clsAuthor : FilterSetClass :=
  { base_filters := [("author", mkRelatedF "author" 0)],
    related_filters := ["author"] }

/-- The filter subset `clsMail` selects for the parameters
`note__author` and `bogus`. -/
def exSubsetMail : List (String × Filter) := [("note", mkRelatedF "note" 0)]

/-- The request filters compiled for an active `price` filter when the data
holds both `price` and `price!`. -/
def exOutPrice : List (String × Filter) :=
  [("price", mkPlain "price"),
   ("price!", { mkPlain "price" with exclude := true })]

/-- A filterset class whose relational filter `a` points back at the class
itself (index 0 of `famCirc`). -/
def clsCirc : FilterSetClass :=
  { base_filters := [("a", mkRelatedF "a" 0)], related_filters := ["a"] }

/-- A circularly referenced family: one class whose relational filter `a`
points back at the class itself. -/
def famCirc : List FilterSetClass := [clsCirc]

/-- An acyclic family: class 0 has a relational filter `b` into class 1,
which has no relational filters. -/
def famAcyc : List FilterSetClass :=
  [{ base_filters := [("b", mkRelatedF "b" 1)], related_filters := ["b"] },
   { base_filters := [("x", mkPlain "x")], related_filters := [] }]

/-- A plain AutoFilter named `x` on field `x` whose lookups do not include
`exact`. -/
def autoX : Filter := mkAutoF "x" (.list ["contains"])

/-- Declared filters consisting of `autoX` alone. -/
def declaredA : List (String × Filter) := [("x", autoX)]

/-- A RelatedFilter declared under the name `note__in` (on field `a`). -/
def relNoteIn : Filter := mkRelatedF "a" 0

/-- A plain AutoFilter named `note` on field `in` with lookup `in`. -/
def autoNote : Filter := mkAutoF "in" (.list ["in"])

/-- Declared filters containing the RelatedFilter `note__in` and the
AutoFilter `note`. -/
def declaredB : List (String × Filter) :=
  [("note__in", relNoteIn), ("note", autoNote)]

/-- A per-field lookup list for the ALL_LOOKUPS sentinel: no field supports
any lookups (the sentinel is unused in the concrete examples). -/
def allLk0 : String → List String := fun _ => []

/-- Whether a char list contains two consecutive underscores. -/
def hasSepChars : List Char → Bool
  | [] => false
  | c :: rest => chStarts ['_', '_'] (c :: rest) || hasSepChars rest

/-- Whether a string contains the lookup separator `__` as a substring. -/
def containsSep (s : String) : Bool := hasSepChars s.data

/-- A well-behaved schema: a plain AutoFilter `x` on field `x` with the
`exact` lookup and a RelatedFilter `r` on field `r`. -/
def declaredW : List (String × Filter) :=
  [("x", mkAutoF "x" (.list ["exact"])), ("r", mkRelatedF "r" 0)]

/-- Doubly nested instance for the relational path `a__b` holding one
validation error on its field `field`; its relationship is
`related(instance a, "b")` as line 233 of filterset.py sets it. -/
def errLeafB : ErrTree :=
  .node (some (relatedName (some "a") "b")) [("field", "invalid")] []

/-- Intermediate instance for the relational filter `a` of the root. -/
def errNodeA : ErrTree := .node (some "a") [] [errLeafB]

/-- Root instance with the single related filterset `errNodeA`. -/
def errRoot : ErrTree := .node none [] [errNodeA]

/-! Generic lemmas about the string and ordered-mapping primitives. -/

theorem strEta (s : String) : (⟨s.data⟩ : String) = s := by
  cases s
  rfl

theorem str_ne_empty_iff_data (s : String) : s ≠ "" ↔ s.data ≠ [] := by
  simp [String.ext_iff]

theorem chStarts_append (a b : List Char) : chStarts a (a ++ b) = true := by
  induction a with
  | nil => rfl
  | cons c cs ih => simp [chStarts, ih]

theorem length_le_of_chStarts (a s : List Char) (h : chStarts a s = true) :
    a.length ≤ s.length := by
  induction a generalizing s with
  | nil => simp
  | cons c cs ih =>
    cases s with
    | nil => simp [chStarts] at h
    | cons d ds =>
      simp only [chStarts, Bool.and_eq_true] at h
      simpa using ih ds h.2

theorem chStarts_false_of_lt (a s : List Char) (h : s.length < a.length) :
    chStarts a s = false := by
  cases hc : chStarts a s
  · rfl
  · exact absurd (length_le_of_chStarts a s hc) (by omega)

theorem find?_eq_filterHead (p : String → Bool) (l : List String) :
    l.find? p = (l.filter p).head? := by
  induction l with
  | nil => rfl
  | cons a t ih =>
    cases hp : p a
    · have hp' : ¬p a = true := by simp [hp]
      rw [List.find?_cons_of_neg _ hp', List.filter_cons_of_neg hp', ih]
    · rw [List.find?_cons_of_pos _ hp, List.filter_cons_of_pos hp]
      rfl

theorem listMax1_mem (l : List String) : ∀ s, listMax1 s l ∈ s :: l := by
  induction l with
  | nil => intro s; exact List.mem_cons_self s []
  | cons t rest ih =>
    intro s
    rw [listMax1]
    have h := ih (if s ≤ t then t else s)
    rcases List.mem_cons.mp h with h' | h'
    · rw [h']
      by_cases hst : s ≤ t
      · rw [if_pos hst]
        exact List.mem_cons_of_mem s (List.mem_cons_self t rest)
      · rw [if_neg hst]
        exact List.mem_cons_self s _
    · exact List.mem_cons_of_mem s (List.mem_cons_of_mem t h')

theorem listMax1_ge (l : List String) :
    ∀ s b, b ∈ s :: l → b ≤ listMax1 s l := by
  induction l with
  | nil =>
    intro s b hb
    have hbs : b = s := by simpa using hb
    rw [hbs]
    exact le_refl s
  | cons t rest ih =>
    intro s b hb
    rw [listMax1]
    by_cases hst : s ≤ t
    · rw [if_pos hst]
      rcases List.mem_cons.mp hb with heq | hb'
      · rw [heq]
        exact le_trans hst (ih t t (List.mem_cons_self t rest))
      · exact ih t b hb'
    · rw [if_neg hst]
      rcases List.mem_cons.mp hb with heq | hb'
      · rw [heq]
        exact ih s s (List.mem_cons_self s rest)
      · rcases List.mem_cons.mp hb' with heq | hb''
        · rw [heq]
          exact le_trans (le_of_not_le hst) (ih s s (List.mem_cons_self s rest))
        · exact ih s b (List.mem_cons_of_mem s hb'')

theorem listMax?_eq_none (l : List String) : listMax? l = none ↔ l = [] := by
  cases l <;> simp [listMax?]

theorem listMax?_eq_some_iff (l : List String) (a : String) :
    listMax? l = some a ↔ a ∈ l ∧ ∀ b ∈ l, b ≤ a := by
  cases l with
  | nil => simp [listMax?]
  | cons s rest =>
    rw [listMax?]
    constructor
    · intro h
      have ha : listMax1 s rest = a := by simpa using h
      subst ha
      exact ⟨listMax1_mem rest s, fun b hb => listMax1_ge rest s b hb⟩
    · intro ⟨hmem, hbound⟩
      have h1 : listMax1 s rest ≤ a := hbound _ (listMax1_mem rest s)
      have h2 : a ≤ listMax1 s rest := listMax1_ge rest s a hmem
      simp [le_antisymm h2 h1]

theorem listMax?_of_perm {l l' : List String} (h : l.Perm l') :
    listMax? l = listMax? l' := by
  cases hl : listMax? l with
  | none =>
    have : l = [] := (listMax?_eq_none l).mp hl
    subst this
    have : l' = [] := h.nil_eq.symm
    simp [this, listMax?]
  | some a =>
    have := (listMax?_eq_some_iff l a).mp hl
    exact ((listMax?_eq_some_iff l' a).mpr
      ⟨h.mem_iff.mp this.1, fun b hb => this.2 b (h.mem_iff.mpr hb)⟩).symm

theorem head?_of_sorted_ge (l : List String)
    (h : l.Pairwise (fun a b => b ≤ a)) : l.head? = listMax? l := by
  cases l with
  | nil => rfl
  | cons a t =>
    have hb : ∀ b ∈ a :: t, b ≤ a := by
      intro b hbmem
      rcases List.mem_cons.mp hbmem with rfl | hb'
      · exact le_refl _
      · exact (List.pairwise_cons.mp h).1 b hb'
    exact ((listMax?_eq_some_iff (a :: t) a).mpr
      ⟨List.mem_cons_self _ _, hb⟩).symm

theorem pySortDesc_perm (l : List String) : (pySortDesc l).Perm l :=
  (List.reverse_perm _).trans (List.perm_insertionSort _ l)

theorem pySortDesc_pairwise (l : List String) :
    (pySortDesc l).Pairwise (fun a b => b ≤ a) := by
  unfold pySortDesc
  exact List.pairwise_reverse.mpr (List.sorted_insertionSort _ l)

/-- `find?` on the reverse-sorted list equals the lexical maximum of the
matching names. -/
theorem findDesc_eq_listMax (l : List String) (p : String → Bool) :
    (pySortDesc l).find? p = listMax? (l.filter p) := by
  rw [find?_eq_filterHead]
  have hsorted : ((pySortDesc l).filter p).Pairwise (fun a b => b ≤ a) :=
    (pySortDesc_pairwise l).sublist (List.filter_sublist _)
  rw [head?_of_sorted_ge _ hsorted]
  exact listMax?_of_perm ((pySortDesc_perm l).filter p)

theorem getLast?_some_of_ne (l : List Char) (h : l ≠ []) :
    ∃ c, l.getLast? = some c := by
  cases l with
  | nil => exact absurd rfl h
  | cons a as => exact ⟨(a :: as).getLast (by simp), List.getLast?_eq_getLast _ _⟩

theorem some_beq_some_char (c d : Char) :
    ((some c == some d) : Bool) = (c == d) := rfl

theorem stripRelPfx_none (param : String) : stripRelPfx none param = param := rfl

theorem stripRelPfx_some_cat (r p : String) (hr : r ≠ "") :
    stripRelPfx (some r) (r ++ LOOKUP_SEP ++ p) = p := by
  unfold stripRelPfx
  have h1 : relTruthy (some r) = true := by simp [relTruthy, hr]
  have h2 : pyStartsWith (r ++ LOOKUP_SEP ++ p) (r ++ LOOKUP_SEP) = true := by
    show chStarts (r ++ LOOKUP_SEP).data (r ++ LOOKUP_SEP ++ p).data = true
    rw [String.data_append (r ++ LOOKUP_SEP) p]
    exact chStarts_append _ _
  rw [if_pos (by simp [h1, h2])]
  show (⟨(r ++ LOOKUP_SEP ++ p).data.drop (r ++ LOOKUP_SEP).data.length⟩ : String) = p
  rw [String.data_append (r ++ LOOKUP_SEP) p]
  rw [List.drop_left]

/-! Claim C1. -/

/-- C1 counterexample: the claim quantifies over every parameter string, but on
the empty parameter (not a declared filter name) the code raises IndexError
at `param[-1]` instead of completing the stated precedence (which would
produce no match). -/
theorem c1_counterexample :
    get_param_filter_name clsNote "" none = Except.error PyError.indexError ∧
      resolveSpec clsNote "" none = none := by
  exact ⟨rfl, rfl⟩

/-- C1 (amended): for every parameter whose relationship-stripped form is
nonempty, `get_param_filter_name` realises exactly the spec's precedence:
first the relationship prefix is stripped, then an exact match against the
known filter names wins, then the negation-marker match, then the greatest
relational filter name (reverse lexical sorted order) which, followed by
the separator, prefixes the parameter; otherwise no match. -/
theorem c1_resolution_precedence (cls : FilterSetClass) (param : String)
    (rel : Option String) (hne : stripRelPfx rel param ≠ "") :
    get_param_filter_name cls param rel =
      Except.ok (resolveSpec cls param rel) := by
  unfold get_param_filter_name gpfnCore resolveSpec
  have hdata : (stripRelPfx rel param).data ≠ [] :=
    (str_ne_empty_iff_data _).mp hne
  obtain ⟨c, hc⟩ := getLast?_some_of_ne _ hdata
  have hemp : (stripRelPfx rel param).data.isEmpty = false := by
    cases hpd : (stripRelPfx rel param).data with
    | nil => exact absurd hpd hdata
    | cons a as => rfl
  have hrev : (stripRelPfx rel param).data.reverse.head? = some c := by
    rw [List.head?_reverse]
    exact hc
  have hgd : (stripRelPfx rel param).data.getLastD ' ' = c := by
    rw [List.getLastD_eq_getLast?, hc]
    rfl
  by_cases hb : inBase cls (stripRelPfx rel param) = true
  · rw [if_pos hb, if_pos hb]
  · rw [if_neg hb, if_neg hb]
    rw [if_neg (by rw [hemp]; simp)]
    rw [hrev, hgd, some_beq_some_char]
    by_cases hcb : ((c == '!') &&
        inBase cls ⟨(stripRelPfx rel param).data.dropLast⟩) = true
    · rw [if_pos hcb, if_pos hcb]
    · rw [if_neg hcb, if_neg hcb, findDesc_eq_listMax]

/-- C1 witness: with relational filters `note` and `note_author`, the
parameter `note_author__title` resolves to `note_author`, not `note`. -/
theorem c1_witness :
    get_param_filter_name clsNote "note_author__title" none =
      Except.ok (some "note_author") :=
  (c1_resolution_precedence clsNote "note_author__title" none
    (by decide)).trans (congrArg Except.ok (by decide))

/-! Claims C9 and C10. -/

/-- C9: the code is wrong on the claim's edge case — an unknown empty
parameter (directly, or `author__` under the relationship `author`)
raises IndexError through resolution and through subset computation
instead of being silently ignored. -/
theorem c9_unknown_empty_param_raises :
    get_param_filter_name clsMail "" none = Except.error PyError.indexError ∧
      get_filter_subset clsMail [""] none = Except.error PyError.indexError := by
  exact ⟨rfl, rfl⟩

/-- C10: whenever the parameter after optional relationship stripping is the
empty string and the empty string is not itself a declared filter name,
`get_param_filter_name` raises IndexError (the negation check indexes the
last character without a length guard). -/
theorem c10_empty_param_index_error (cls : FilterSetClass) (param : String)
    (rel : Option String) (hstrip : stripRelPfx rel param = "")
    (hbase : inBase cls "" = false) :
    get_param_filter_name cls param rel = Except.error PyError.indexError := by
  unfold get_param_filter_name gpfnCore
  rw [hstrip]
  rw [if_neg (by simp [hbase]), if_pos (by decide)]

/-- C10 witness: the raw parameter `author__` equal to the relationship
prefix `author` plus the separator hits the unguarded indexing. -/
theorem c10_witness :
    get_param_filter_name clsAuthor "author__" (some "author") =
      Except.error PyError.indexError :=
  c10_empty_param_index_error clsAuthor "author__" (some "author")
    (by decide) (by decide)

/-! Claim C2. -/

theorem resolveAll_ok_mem (cls : FilterSetClass) (rel : Option String)
    (params : List String) (names : List (Option String))
    (hok : resolveAll cls rel params = .ok names) (k : String) :
    some k ∈ names ↔
      ∃ p ∈ params, get_param_filter_name cls p rel = Except.ok (some k) := by
  induction params generalizing names with
  | nil =>
    rw [resolveAll] at hok
    injection hok with h
    subst h
    simp
  | cons p ps ih =>
    rw [resolveAll] at hok
    cases hgp : get_param_filter_name cls p rel with
    | error e => rw [hgp] at hok; cases hok
    | ok v =>
      rw [hgp] at hok
      cases hra : resolveAll cls rel ps with
      | error e => rw [hra] at hok; cases hok
      | ok vs =>
        rw [hra] at hok
        injection hok with h
        subst h
        constructor
        · intro hk
          rcases List.mem_cons.mp hk with heq | hk'
          · exact ⟨p, List.mem_cons_self p ps, by rw [hgp, heq]⟩
          · obtain ⟨q, hq, hgq⟩ := (ih vs hra).mp hk'
            exact ⟨q, List.mem_cons_of_mem p hq, hgq⟩
        · intro ⟨q, hq, hgq⟩
          rcases List.mem_cons.mp hq with heq | hq'
          · subst heq
            rw [hgp] at hgq
            injection hgq with h2
            rw [← h2]
            exact List.mem_cons_self _ _
          · exact List.mem_cons_of_mem _ ((ih vs hra).mpr ⟨q, hq', hgq⟩)

/-- A successfully resolved name is a declared filter name or a relational
filter name. -/
theorem gpfn_ok_base_or_related (cls : FilterSetClass) (p : String)
    (rel : Option String) (k : String)
    (h : get_param_filter_name cls p rel = Except.ok (some k)) :
    inBase cls k = true ∨ k ∈ cls.related_filters := by
  unfold get_param_filter_name gpfnCore at h
  by_cases hb : inBase cls (stripRelPfx rel p) = true
  · rw [if_pos hb] at h
    injection h with h1
    injection h1 with h2
    rw [← h2]
    exact Or.inl hb
  · rw [if_neg hb] at h
    by_cases hemp : (stripRelPfx rel p).data.isEmpty = true
    · rw [if_pos hemp] at h
      cases h
    · rw [if_neg hemp] at h
      by_cases hcb : ((stripRelPfx rel p).data.getLastD ' ' == '!' &&
          inBase cls ⟨(stripRelPfx rel p).data.dropLast⟩) = true
      · rw [if_pos hcb] at h
        injection h with h1
        injection h1 with h2
        rw [← h2]
        have hcb2 := hcb
        rw [Bool.and_eq_true] at hcb2
        exact Or.inl hcb2.2
      · rw [if_neg hcb] at h
        injection h with h1
        refine Or.inr ?_
        have hmem := List.mem_of_find?_eq_some h1
        exact (pySortDesc_perm cls.related_filters).mem_iff.mp hmem

/-- C2 counterexample: the claim quantifies over every request parameter set,
but a parameter whose stripped form is empty makes `get_filter_subset`
raise IndexError rather than return any mapping. -/
theorem c2_counterexample :
    get_filter_subset clsNote [""] none = Except.error PyError.indexError := rfl

/-- C2 (amended): whenever `get_filter_subset` returns a mapping (no
parameter hits the empty-parameter IndexError), the mapping is a sublist
of the full schema (hence a subset listed in declaration order, computed
without mutating the shared schema), and its keys are exactly the
successfully resolved parameter names. -/
theorem c2_subset_exact (cls : FilterSetClass) (P : List String)
    (rel : Option String) (R : List (String × Filter))
    (hrel : ∀ n ∈ cls.related_filters, inBase cls n = true)
    (hok : get_filter_subset cls P rel = .ok R) :
    R.Sublist cls.base_filters ∧
      ∀ k : String, k ∈ R.map Prod.fst ↔
        ∃ p ∈ P, get_param_filter_name cls p rel = Except.ok (some k) := by
  unfold get_filter_subset at hok
  cases hra : resolveAll cls rel P with
  | error e => rw [hra] at hok; cases hok
  | ok names =>
    rw [hra] at hok
    injection hok with hR
    constructor
    · rw [← hR]
      exact List.filter_sublist _
    · intro k
      rw [← hR]
      constructor
      · intro hk
        obtain ⟨kv, hkv, hfst⟩ := List.mem_map.mp hk
        have h1 := List.mem_filter.mp hkv
        have h2 : some k ∈ names := by
          have := h1.2
          rw [hfst] at this
          exact List.elem_iff.mp this
        exact (resolveAll_ok_mem cls rel P names hra k).mp h2
      · intro hex
        have h2 : some k ∈ names :=
          (resolveAll_ok_mem cls rel P names hra k).mpr hex
        obtain ⟨p, hp, hgp⟩ := hex
        have hkbase : inBase cls k = true := by
          rcases gpfn_ok_base_or_related cls p rel k hgp with h | h
          · exact h
          · exact hrel k h
        have hkmem : k ∈ baseNames cls := List.elem_iff.mp hkbase
        obtain ⟨kv, hkv, hfst⟩ := List.mem_map.mp hkmem
        refine List.mem_map.mpr ⟨kv, List.mem_filter.mpr ⟨hkv, ?_⟩, hfst⟩
        rw [hfst]
        exact List.elem_iff.mpr h2

/-- C2 witness: for `clsMail` and the parameters `note__author` and `bogus`,
the subset consists exactly of the `note` entry; in particular `note` is
among its keys via the resolved parameter `note__author`. -/
theorem c2_witness : "note" ∈ exSubsetMail.map Prod.fst :=
  ((c2_subset_exact clsMail ["note__author", "bogus"] none exSubsetMail
      (by decide) (by rfl)).2 "note").mpr
    ⟨"note__author", by decide, by rfl⟩

/-! Claim C3. -/

/-- C3: for every active filter `f` under name `n` whose negated parameter
name (request-visible name plus `!`, relationship-qualified) occurs in the
request data, the compiled request-filter mapping contains the positive
entry `(n, f)` unchanged plus an entry under the negated name holding a
copy of the base filter with the exclusion flag flipped relative to `f`;
both entries coexist, and the shared declarations (`base`, pure values in
this embedding) are not modified. -/
theorem c3_exclusion_expansion (base : List (String × Filter))
    (data : List String) (relationship : Option String) (n : String)
    (f bf : Filter)
    (hdata : data.contains (relatedName relationship (n ++ "!")) = true)
    (hbf : lookupFilter base n = some bf) :
    ∀ (fs out : List (String × Filter)), (n, f) ∈ fs →
      get_request_filters base data relationship fs = .ok out →
      (n, f) ∈ out ∧
        (n ++ "!", { bf with exclude := !f.exclude }) ∈ out := by
  intro fs
  induction fs with
  | nil =>
    intro out hmem _
    cases hmem
  | cons hd rest ih =>
    intro out hmem hok
    obtain ⟨m, g⟩ := hd
    rw [get_request_filters] at hok
    rcases List.mem_cons.mp hmem with heq | hmem'
    · have hn : n = m := congrArg Prod.fst heq
      have hf : f = g := congrArg Prod.snd heq
      subst hn
      subst hf
      rw [if_pos hdata, hbf] at hok
      cases hrec : get_request_filters base data relationship rest with
      | error e =>
        rw [hrec] at hok
        cases hok
      | ok out' =>
        rw [hrec] at hok
        injection hok with h1
        rw [← h1]
        exact ⟨List.mem_cons_self _ _,
          List.mem_cons_of_mem _ (List.mem_cons_self _ _)⟩
    · by_cases hc : data.contains (relatedName relationship (m ++ "!")) = true
      · rw [if_pos hc] at hok
        cases hlf : lookupFilter base m with
        | none =>
          rw [hlf] at hok
          cases hok
        | some bm =>
          rw [hlf] at hok
          cases hrec : get_request_filters base data relationship rest with
          | error e =>
            rw [hrec] at hok
            cases hok
          | ok out' =>
            rw [hrec] at hok
            injection hok with h1
            obtain ⟨ha, hb⟩ := ih out' hmem' hrec
            rw [← h1]
            exact ⟨List.mem_cons_of_mem _ (List.mem_cons_of_mem _ ha),
              List.mem_cons_of_mem _ (List.mem_cons_of_mem _ hb)⟩
      · rw [if_neg hc] at hok
        cases hrec : get_request_filters base data relationship rest with
        | error e =>
          rw [hrec] at hok
          cases hok
        | ok out' =>
          rw [hrec] at hok
          injection hok with h1
          obtain ⟨ha, hb⟩ := ih out' hmem' hrec
          rw [← h1]
          exact ⟨List.mem_cons_of_mem _ ha, List.mem_cons_of_mem _ hb⟩

/-- C3 witness: with one `price` filter and the request supplying both
`price` and `price!`, the compiled mapping holds the unchanged positive
entry and the flipped copy side by side. -/
theorem c3_witness :
    ("price", mkPlain "price") ∈ exOutPrice ∧
      ("price" ++ "!",
        { mkPlain "price" with exclude := !(mkPlain "price").exclude }) ∈
        exOutPrice :=
  c3_exclusion_expansion [("price", mkPlain "price")] ["price", "price!"]
    none "price" (mkPlain "price") (mkPlain "price") (by decide) (by rfl)
    [("price", mkPlain "price")] exOutPrice (by decide) (by rfl)

/-! Claims C4 and C5. -/

/-- C4: a nested relational parameter is handed to the nested instance with
the relationship prefix stripped (resolving `r ++ "__" ++ p` under
relationship `r` is resolving `p` with no relationship), and compilation
of an active relational filter constrains the base collection with the
containment lookup `field_name ++ "__in"` against the subquery of the
nested instance's own compiled queryset — for `author__email`, the
constraint is `author__in` against the nested queryset, and never a
direct field match against the dotted name `author__email`. -/
theorem c4_relational_containment :
    (∀ (cls : FilterSetClass) (r p : String), r ≠ "" →
      get_param_filter_name cls (r ++ LOOKUP_SEP ++ p) (some r) =
        get_param_filter_name cls p none) ∧
      filter_related_filtersets ["author__email"] none
        [("author", mkRelatedF "author" 0)] [("author", QuerySetExpr.base)]
        QuerySetExpr.base =
        .ok (.filterIn .base ("author" ++ LOOKUP_SEP ++ "in")
          QuerySetExpr.base) ∧
      ("author" ++ LOOKUP_SEP ++ "in") ≠ "author__email" := by
  refine ⟨fun cls r p hr => ?_, by rfl, by decide⟩
  unfold get_param_filter_name
  rw [stripRelPfx_some_cat r p hr, stripRelPfx_none]

/-- C4 witness: under relationship `note`, the parameter `note__email`
resolves exactly as the stripped parameter `email` does at the nested
level. -/
theorem c4_witness :
    get_param_filter_name clsMail ("note" ++ LOOKUP_SEP ++ "email")
      (some "note") = get_param_filter_name clsMail "email" none :=
  c4_relational_containment.1 clsMail "note" "email" (by decide)

/-- C5: a relational filterset entry none of whose qualifying parameters
occur in the request data (no raw parameter starts with the
relationship-qualified name plus separator) contributes nothing to query
compilation: the result equals compilation with that entry absent. -/
theorem c5_inactive_relational_noop (data : List String)
    (relationship : Option String) (fs : List (String × Filter))
    (pre post : List (String × QuerySetExpr)) (rn : String)
    (rqs : QuerySetExpr) (q : QuerySetExpr)
    (h : data.any (fun v => pyStartsWith v
      (relatedName relationship rn ++ LOOKUP_SEP)) = false) :
    filter_related_filtersets data relationship fs
        (pre ++ (rn, rqs) :: post) q =
      filter_related_filtersets data relationship fs (pre ++ post) q := by
  induction pre generalizing q with
  | nil =>
    rw [List.nil_append, List.nil_append, filter_related_filtersets]
    rw [if_neg (by simp [h])]
  | cons hd rest ih =>
    obtain ⟨m, mq⟩ := hd
    rw [List.cons_append, List.cons_append, filter_related_filtersets,
      filter_related_filtersets]
    by_cases hc : data.any (fun v => pyStartsWith v
        (relatedName relationship m ++ LOOKUP_SEP)) = true
    · rw [if_pos hc, if_pos hc]
      cases hlf : lookupFilter fs m with
      | none => rfl
      | some fm =>
        exact ih (QuerySetExpr.filterIn q (fm.field_name ++ LOOKUP_SEP ++ "in") mq)
    · rw [if_neg hc, if_neg hc]
      exact ih q

/-- C5 witness: with no parameter under the `author` relationship in the
request data, dropping the `author` related filterset leaves compilation
unchanged. -/
theorem c5_witness :
    filter_related_filtersets ["name__x"] none
        [("author", mkRelatedF "author" 0)]
        ([] ++ ("author", QuerySetExpr.base) :: []) QuerySetExpr.base =
      filter_related_filtersets ["name__x"] none
        [("author", mkRelatedF "author" 0)] ([] ++ []) QuerySetExpr.base :=
  c5_inactive_relational_noop ["name__x"] none
    [("author", mkRelatedF "author" 0)] [] [] "author" QuerySetExpr.base
    QuerySetExpr.base (by decide)

/-! Claim C7. -/

/-- C7: the re-keying is in fact relative to the root, not the parent — each
nested instance's `relationship` is the full path from the root (line 233)
and `related(related_filterset, key)` prefixes with that full path, so an
error on `field` inside the doubly nested `a__b` instance surfaces to the
intermediate instance `a` keyed `a__b__field` (not `b__field`) and to the
root keyed `a__a__b__field` (not `a__b__field`), acquiring a duplicated
`a` prefix. This contradicts both the claim and the code's own comment
(filterset.py lines 273-274). -/
theorem c7_error_rekeying_root_relative :
    formErrors errRoot = [("a__a__b__field", "invalid")] ∧
      formErrors errNodeA = [("a__b__field", "invalid")] ∧
      formErrors errLeafB = [("field", "invalid")] := by
  exact ⟨rfl, rfl, rfl⟩

/-! Claim C8. -/

theorem stripRelPfx_single_a (rel : Option String) :
    stripRelPfx rel "a" = "a" := by
  cases rel with
  | none => rfl
  | some s =>
    have hlen : ("a" : String).data.length < (s ++ LOOKUP_SEP).data.length := by
      rw [String.data_append, List.length_append]
      have h1 : ("a" : String).data.length = 1 := rfl
      have h2 : LOOKUP_SEP.data.length = 2 := rfl
      rw [h1, h2]
      omega
    have hsw : pyStartsWith "a" (s ++ LOOKUP_SEP) = false :=
      chStarts_false_of_lt (s ++ LOOKUP_SEP).data ("a" : String).data hlen
    unfold stripRelPfx
    rw [if_neg (by simp [hsw])]

theorem childrenOf_clsCirc (rel : Option String) :
    childrenOf clsCirc ["a"] rel = [("a", mkRelatedF "a" 0)] := by
  have h1 : get_param_filter_name clsCirc "a" rel = .ok (some "a") := by
    unfold get_param_filter_name
    rw [stripRelPfx_single_a rel]
    rfl
  unfold childrenOf get_filter_subset resolveAll
  rw [h1]
  rfl

theorem construct_famCirc_false :
    ∀ (fuel : Nat) (rel : Option String),
      construct famCirc fuel 0 ["a"] rel = false := by
  intro fuel
  induction fuel with
  | zero => intro rel; rfl
  | succ m ih =>
    intro rel
    show (childrenOf clsCirc ["a"] rel).all
      (fun nf => construct famCirc m nf.2.target ["a"]
        (some (relatedName rel nf.1))) = false
    rw [childrenOf_clsCirc rel]
    show (construct famCirc m 0 ["a"] (some (relatedName rel "a")) && true) = false
    rw [ih (some (relatedName rel "a"))]
    rfl

/-- C8 counterexample: for the circularly referenced family `famCirc` (one
class whose relational filter `a` references the class itself) and the
finite request parameter mapping with the single key `a`, the recursive
construction of related filterset instances never completes: the nested
instance again activates `a` (exact name match survives every
relationship prefix), at every depth. -/
theorem c8_counterexample : ¬ ConstructTerminates famCirc 0 ["a"] none := by
  rintro ⟨fuel, hf⟩
  rw [construct_famCirc_false fuel none] at hf
  cases hf

theorem lookupFilter_mem (m : List (String × Filter)) (k : String) (v : Filter)
    (h : lookupFilter m k = some v) : (k, v) ∈ m := by
  induction m with
  | nil => cases h
  | cons kv rest ih =>
    obtain ⟨a, b⟩ := kv
    unfold lookupFilter at h
    by_cases hk : ((a, b).1 == k) = true
    · rw [if_pos hk] at h
      injection h with h2
      have ha : a = k := beq_iff_eq.mp hk
      rw [← ha, ← h2]
      exact List.mem_cons_self _ _
    · rw [if_neg hk] at h
      exact List.mem_cons_of_mem _ (ih h)

theorem childrenOf_mem (cls : FilterSetClass) (data : List String)
    (rel : Option String) (nf : String × Filter)
    (h : nf ∈ childrenOf cls data rel) :
    nf ∈ cls.base_filters ∧ nf.1 ∈ cls.related_filters := by
  unfold childrenOf at h
  cases hfs : get_filter_subset cls data rel with
  | error e => rw [hfs] at h; cases h
  | ok fs =>
    rw [hfs] at h
    obtain ⟨n, hn, hmap⟩ := List.mem_filterMap.mp h
    cases hlf : lookupFilter fs n with
    | none => rw [hlf] at hmap; cases hmap
    | some f =>
      rw [hlf] at hmap
      injection hmap with h2
      have hfsmem : (n, f) ∈ fs := lookupFilter_mem fs n f hlf
      have hsub : fs.Sublist cls.base_filters := by
        unfold get_filter_subset at hfs
        cases hra : resolveAll cls rel data with
        | error e => rw [hra] at hfs; cases hfs
        | ok names =>
          rw [hra] at hfs
          injection hfs with hR
          rw [← hR]
          exact List.filter_sublist _
      constructor
      · rw [← h2]
        exact hsub.mem hfsmem
      · rw [← h2]
        exact hn

/-- C8 (amended): the recursive instantiation terminates for every finite
request parameter mapping whenever the family's relational reference
graph is acyclic, witnessed by a rank function that strictly decreases
across every relational reference; construction completes within any fuel
exceeding the root's rank. Termination does not hold for circular
families (see the counterexample), so the acyclicity hypothesis is
necessary. -/
theorem c8_acyclic_terminates (fam : List FilterSetClass) (rk : Nat → Nat)
    (hdec : ∀ i, (h : i < fam.length) →
      ∀ kv ∈ (fam.get ⟨i, h⟩).base_filters,
        kv.1 ∈ (fam.get ⟨i, h⟩).related_filters → rk kv.2.target < rk i) :
    ∀ (fuel i : Nat) (data : List String) (rel : Option String),
      rk i < fuel → construct fam fuel i data rel = true := by
  intro fuel
  induction fuel with
  | zero =>
    intro i data rel h
    exact absurd h (Nat.not_lt_zero _)
  | succ m ih =>
    intro i data rel h
    cases hg : fam.get? i with
    | none =>
      show (match fam.get? i with
        | none => true
        | some cls => (childrenOf cls data rel).all
            (fun nf => construct fam m nf.2.target data
              (some (relatedName rel nf.1)))) = true
      rw [hg]
    | some cls =>
      show (match fam.get? i with
        | none => true
        | some cls => (childrenOf cls data rel).all
            (fun nf => construct fam m nf.2.target data
              (some (relatedName rel nf.1)))) = true
      rw [hg]
      rw [List.all_eq_true]
      intro nf hnf
      obtain ⟨hbase, hrelmem⟩ := childrenOf_mem cls data rel nf hnf
      obtain ⟨hi, hgi⟩ := List.get?_eq_some.mp hg
      rw [← hgi] at hbase hrelmem
      have hd := hdec i hi nf hbase hrelmem
      exact ih nf.2.target data (some (relatedName rel nf.1)) (by omega)

/-- C8 witness: the acyclic two-class family terminates with fuel 2 on the
nested parameter `b__x`. -/
theorem c8_witness : construct famAcyc 2 0 ["b__x"] none = true :=
  c8_acyclic_terminates famAcyc (fun i => 1 - i) (by decide) 2 0 ["b__x"]
    none (by decide)

/-! Claim C6: toolkit about the ordered-mapping primitives. -/

theorem lookup_cons (a : String) (b : Filter) (t : List (String × Filter))
    (k : String) :
    lookupFilter ((a, b) :: t) k =
      if (a == k) = true then some b else lookupFilter t k := rfl

theorem lookup_odSet (m : List (String × Filter)) (k : String) (v : Filter)
    (k2 : String) :
    lookupFilter (odSet m k v) k2 =
      if k2 = k then some v else lookupFilter m k2 := by
  induction m with
  | nil =>
    show lookupFilter [(k, v)] k2 = _
    rw [lookup_cons]
    by_cases h : k2 = k
    · subst h
      simp
    · have hb : (k == k2) = false := beq_eq_false_iff_ne.mpr (Ne.symm h)
      simp [hb, h]
  | cons kv rest ih =>
    obtain ⟨a, b⟩ := kv
    show lookupFilter (if (a, b).1 == k then (k, v) :: rest
      else (a, b) :: odSet rest k v) k2 = _
    by_cases hk : ((a, b).1 == k) = true
    · rw [if_pos hk]
      have ha : a = k := beq_iff_eq.mp hk
      rw [lookup_cons, lookup_cons]
      by_cases h2 : k2 = k
      · subst h2
        simp
      · have hb1 : (k == k2) = false := beq_eq_false_iff_ne.mpr (Ne.symm h2)
        have hb2 : (a == k2) = false := by rw [ha]; exact hb1
        simp [hb1, hb2, h2]
    · rw [if_neg hk]
      rw [lookup_cons, lookup_cons]
      by_cases h2 : (a == k2) = true
      · have ha2 : a = k2 := beq_iff_eq.mp h2
        have hne : ¬k2 = k := by
          rw [← ha2]
          intro hh
          exact hk (beq_iff_eq.mpr hh)
        simp [h2, hne]
      · simp [h2, ih]

theorem mem_odSet (m : List (String × Filter)) (k : String) (v : Filter)
    (kv' : String × Filter) (h : kv' ∈ odSet m k v) :
    kv' ∈ m ∨ kv' = (k, v) := by
  induction m with
  | nil =>
    rcases List.mem_cons.mp h with heq | hh
    · exact Or.inr heq
    · cases hh
  | cons kv rest ih =>
    revert h
    show kv' ∈ (if kv.1 == k then (k, v) :: rest else kv :: odSet rest k v) → _
    by_cases hk : (kv.1 == k) = true
    · rw [if_pos hk]
      intro h
      rcases List.mem_cons.mp h with heq | hh
      · exact Or.inr heq
      · exact Or.inl (List.mem_cons_of_mem _ hh)
    · rw [if_neg hk]
      intro h
      rcases List.mem_cons.mp h with heq | hh
      · exact Or.inl (heq ▸ List.mem_cons_self _ _)
      · rcases ih hh with h1 | h2
        · exact Or.inl (List.mem_cons_of_mem _ h1)
        · exact Or.inr h2

theorem mem_foldl_odSet (ws : List (String × Filter)) :
    ∀ (b : List (String × Filter)) (kv' : String × Filter),
      kv' ∈ ws.foldl (fun b kv => odSet b kv.1 kv.2) b →
      kv' ∈ b ∨ kv' ∈ ws := by
  induction ws with
  | nil =>
    intro b kv' h
    exact Or.inl h
  | cons kv rest ih =>
    intro b kv' h
    rw [List.foldl_cons] at h
    rcases ih (odSet b kv.1 kv.2) kv' h with h1 | h2
    · rcases mem_odSet b kv.1 kv.2 kv' h1 with h3 | h4
      · exact Or.inl h3
      · refine Or.inr (List.mem_cons_self kv rest |> fun _ => ?_)
        rw [h4]
        exact List.mem_cons_self _ _
    · exact Or.inr (List.mem_cons_of_mem _ h2)

theorem lookup_foldl_odSet_preserve (ws : List (String × Filter)) :
    ∀ (b : List (String × Filter)) (m : String) (fv : Filter),
      (∀ kv ∈ ws, kv.1 = m → kv.2 = fv) →
      lookupFilter b m = some fv →
      lookupFilter (ws.foldl (fun b kv => odSet b kv.1 kv.2) b) m = some fv := by
  induction ws with
  | nil =>
    intro b m fv _ hb
    exact hb
  | cons kv rest ih =>
    intro b m fv hall hb
    rw [List.foldl_cons]
    refine ih _ m fv (fun x hx h1 => hall x (List.mem_cons_of_mem _ hx) h1) ?_
    rw [lookup_odSet]
    by_cases h : m = kv.1
    · rw [if_pos h]
      rw [hall kv (List.mem_cons_self _ _) h.symm]
    · rw [if_neg h]
      exact hb

theorem lookup_foldl_odSet_of_writes (ws : List (String × Filter)) :
    ∀ (b : List (String × Filter)) (m : String) (fv : Filter),
      (∀ kv ∈ ws, kv.1 = m → kv.2 = fv) →
      (lookupFilter b m = some fv ∨ ∃ kv ∈ ws, kv.1 = m) →
      lookupFilter (ws.foldl (fun b kv => odSet b kv.1 kv.2) b) m = some fv := by
  induction ws with
  | nil =>
    intro b m fv _ hsome
    rcases hsome with h | ⟨kv, hkv, _⟩
    · exact h
    · cases hkv
  | cons kv rest ih =>
    intro b m fv hall hsome
    rw [List.foldl_cons]
    by_cases hk : kv.1 = m
    · have hv : kv.2 = fv := hall kv (List.mem_cons_self _ _) hk
      refine ih _ m fv (fun x hx h1 => hall x (List.mem_cons_of_mem _ hx) h1)
        (Or.inl ?_)
      rw [lookup_odSet, if_pos hk.symm, hv]
    · refine ih _ m fv (fun x hx h1 => hall x (List.mem_cons_of_mem _ hx)
        h1) ?_
      rcases hsome with h | ⟨x, hx, hx1⟩
      · refine Or.inl ?_
        rw [lookup_odSet, if_neg (fun hh => hk hh.symm)]
        exact h
      · rcases List.mem_cons.mp hx with heq | hx'
        · exact absurd (heq ▸ hx1) hk
        · exact Or.inr ⟨x, hx', hx1⟩

theorem lookup_foldl_odSet_skip (ws : List (String × Filter)) :
    ∀ (b : List (String × Filter)) (m : String),
      (∀ kv ∈ ws, kv.1 ≠ m) →
      lookupFilter (ws.foldl (fun b kv => odSet b kv.1 kv.2) b) m =
        lookupFilter b m := by
  induction ws with
  | nil =>
    intro b m _
    rfl
  | cons kv rest ih =>
    intro b m hall
    rw [List.foldl_cons]
    rw [ih _ m (fun x hx => hall x (List.mem_cons_of_mem _ hx))]
    rw [lookup_odSet,
      if_neg (fun hh => hall kv (List.mem_cons_self _ _) hh.symm)]

theorem lookup_of_mem_nodup (dcl : List (String × Filter)) (m : String)
    (v : Filter) (hmem : (m, v) ∈ dcl) (hnodup : (dcl.map Prod.fst).Nodup) :
    lookupFilter dcl m = some v := by
  induction dcl with
  | nil => cases hmem
  | cons kv rest ih =>
    obtain ⟨a, b⟩ := kv
    rw [lookup_cons]
    rcases List.mem_cons.mp hmem with heq | hmem'
    · have ha : a = m := (congrArg Prod.fst heq).symm
      have hb : b = v := (congrArg Prod.snd heq).symm
      rw [if_pos (beq_iff_eq.mpr ha), hb]
    · have hkeys := List.nodup_cons.mp hnodup
      have hne : a ≠ m := by
        intro hh
        exact hkeys.1 (hh ▸ List.mem_map.mpr ⟨(m, v), hmem', rfl⟩)
      rw [if_neg (by simp [hne])]
      exact ih hmem' hkeys.2

theorem lookup_none_iff (dcl : List (String × Filter)) (k : String) :
    lookupFilter dcl k = none ↔ ∀ kv ∈ dcl, kv.1 ≠ k := by
  induction dcl with
  | nil => simp [lookupFilter]
  | cons kv rest ih =>
    obtain ⟨a, b⟩ := kv
    rw [lookup_cons]
    by_cases h : (a == k) = true
    · rw [if_pos h]
      simp only [beq_iff_eq] at h
      constructor
      · intro hh
        cases hh
      · intro hall
        exact absurd h (hall (a, b) (List.mem_cons_self _ _))
    · rw [if_neg h]
      simp only [beq_iff_eq] at h
      rw [ih]
      constructor
      · intro hall kv2 hkv2
        rcases List.mem_cons.mp hkv2 with heq | h2
        · rw [heq]
          exact h
        · exact hall kv2 h2
      · intro hall kv2 hkv2
        exact hall kv2 (List.mem_cons_of_mem _ hkv2)

theorem lookup_none_of_sublist (l' l : List (String × Filter)) (k : String)
    (hsub : l'.Sublist l) (h : lookupFilter l k = none) :
    lookupFilter l' k = none :=
  (lookup_none_iff l' k).mpr
    (fun kv hkv => (lookup_none_iff l k).mp h kv (hsub.mem hkv))

theorem odDelete_sublist (m : List (String × Filter)) (k : String) :
    (odDelete m k).Sublist m :=
  List.filter_sublist _

theorem lookup_odDelete_self (m : List (String × Filter)) (k : String) :
    lookupFilter (odDelete m k) k = none := by
  refine (lookup_none_iff _ _).mpr ?_
  intro kv hkv
  have := List.mem_filter.mp hkv
  simpa [bne] using this.2

theorem lookup_odDelete_ne (m : List (String × Filter)) (k k2 : String)
    (h : k2 ≠ k) : lookupFilter (odDelete m k) k2 = lookupFilter m k2 := by
  induction m with
  | nil => rfl
  | cons kv rest ih =>
    obtain ⟨a, b⟩ := kv
    show lookupFilter (List.filter _ ((a, b) :: rest)) k2 = _
    rw [List.filter_cons]
    by_cases ha : ((a, b).1 != k) = true
    · rw [if_pos ha]
      rw [lookup_cons, lookup_cons]
      by_cases h2 : (a == k2) = true
      · rw [if_pos h2, if_pos h2]
      · rw [if_neg h2, if_neg h2]
        exact ih
    · rw [if_neg ha]
      have hak : a = k := by
        simpa [bne] using ha
      rw [lookup_cons]
      have h2 : (a == k2) = false := by
        rw [hak]
        exact beq_eq_false_iff_ne.mpr (Ne.symm h)
      rw [h2]
      show lookupFilter (odDelete rest k) k2 = lookupFilter rest k2
      exact ih

/-! Claim C6: the string replacement and separator lemmas. -/

theorem chStarts_append_drop (o : List Char) :
    ∀ (l : List Char), chStarts o l = true → o ++ l.drop o.length = l := by
  induction o with
  | nil =>
    intro l _
    simp
  | cons a as ih =>
    intro l h
    cases l with
    | nil => cases h
    | cons b bs =>
      simp only [chStarts, Bool.and_eq_true] at h
      have hab : a = b := by simpa using h.1
      have := ih bs h.2
      simp only [List.cons_append, List.length_cons, List.drop_succ_cons]
      rw [hab, this]

theorem replaceFirstAux_self (o : List Char) :
    ∀ (l : List Char), replaceFirstAux o o l = l := by
  intro l
  induction l with
  | nil => rfl
  | cons c rest ih =>
    rw [replaceFirstAux]
    by_cases h : chStarts o (c :: rest) = true
    · rw [if_pos h]
      exact chStarts_append_drop o (c :: rest) h
    · rw [if_neg h, ih]

theorem pyReplaceFirst_self (s old : String) : pyReplaceFirst s old old = s := by
  unfold pyReplaceFirst
  by_cases h : old.data = []
  · rw [if_pos h, h]
    simp
  · rw [if_neg h, replaceFirstAux_self]

theorem foldl_odSet_rep_self (name : String) (ws : List (String × Filter)) :
    ∀ (b : List (String × Filter)),
      ws.foldl (fun b kv => odSet b (pyReplaceFirst kv.1 name name) kv.2) b =
        ws.foldl (fun b kv => odSet b kv.1 kv.2) b := by
  induction ws with
  | nil =>
    intro b
    rfl
  | cons kv rest ih =>
    intro b
    rw [List.foldl_cons, List.foldl_cons, pyReplaceFirst_self]
    exact ih _

theorem hasSepChars_append_sep (x y : List Char) :
    hasSepChars (x ++ '_' :: '_' :: y) = true := by
  induction x with
  | nil => rfl
  | cons c rest ih =>
    show (chStarts ['_', '_'] (c :: (rest ++ '_' :: '_' :: y)) ||
      hasSepChars (rest ++ '_' :: '_' :: y)) = true
    rw [ih, Bool.or_true]

theorem ne_of_sep_free (n m lk : String) (h : containsSep n = false) :
    n ≠ m ++ LOOKUP_SEP ++ lk := by
  intro heq
  have hsep : containsSep (m ++ LOOKUP_SEP ++ lk) = true := by
    unfold containsSep
    rw [String.data_append, String.data_append]
    have h2 : m.data ++ LOOKUP_SEP.data ++ lk.data =
        m.data ++ ('_' :: '_' :: lk.data) := by
      rw [List.append_assoc]
      rfl
    rw [h2]
    exact hasSepChars_append_sep _ _
  rw [heq, hsep] at h
  cases h

/-! Claim C6: membership characterization of the generated mappings. -/

theorem dfGenPart_mem (dcl : List (String × Filter))
    (fields : List (String × List String)) (kv : String × Filter)
    (h : kv ∈ dfGenPart dcl fields) :
    ∃ fl ∈ fields, ∃ lk ∈ fl.2, kv = (filterNameFor fl.1 lk,
      match lookupFilter dcl (filterNameFor fl.1 lk) with
      | some d => d
      | none => genFilter fl.1 lk) := by
  unfold dfGenPart at h
  rcases mem_foldl_odSet _ _ kv h with h1 | h2
  · cases h1
  · obtain ⟨fl, hfl, hkv⟩ := List.mem_flatMap.mp h2
    obtain ⟨lk, hlk, heq⟩ := List.mem_map.mp hkv
    exact ⟨fl, hfl, lk, hlk, heq.symm⟩

theorem dfGetFilters_mem (dcl : List (String × Filter))
    (fields : List (String × List String)) (kv : String × Filter)
    (h : kv ∈ dfGetFilters dcl fields) :
    kv ∈ dfGenPart dcl fields ∨ kv ∈ dcl := by
  unfold dfGetFilters odUpdate at h
  exact mem_foldl_odSet _ _ kv h

/-- Every entry of a regenerated mapping whose key is `m` carries the value
already declared under `m`. -/
theorem dfGetFilters_val_at (dcl : List (String × Filter))
    (fields : List (String × List String)) (m : String) (fv : Filter)
    (hl : lookupFilter dcl m = some fv)
    (hnodup : (dcl.map Prod.fst).Nodup) :
    ∀ kv ∈ dfGetFilters dcl fields, kv.1 = m → kv.2 = fv := by
  intro kv hkv hk1
  rcases dfGetFilters_mem dcl fields kv hkv with hgen | hdcl
  · obtain ⟨fl, hfl, lk, hlk, heq⟩ := dfGenPart_mem _ _ _ hgen
    have h1 : filterNameFor fl.1 lk = m := by
      rw [heq] at hk1
      exact hk1
    have h2 : kv.2 = (match lookupFilter dcl (filterNameFor fl.1 lk) with
        | some d => d
        | none => genFilter fl.1 lk) := by
      rw [heq]
    rw [h1, hl] at h2
    exact h2
  · have hmem : (m, kv.2) ∈ dcl := by
      rw [← hk1]
      exact hdcl
    have := lookup_of_mem_nodup dcl m kv.2 hmem hnodup
    rw [hl] at this
    injection this with h2
    exact h2.symm

/-- The keys of a mapping regenerated from a single field `nm` are `nm`, a
lookup-suffixed `nm ++ "__" ++ lk`, or keys of the declared copy. -/
theorem dfGetFilters_single_keys (dcl : List (String × Filter)) (nm : String)
    (lks : List String) (kv : String × Filter)
    (h : kv ∈ dfGetFilters dcl [(nm, lks)]) :
    kv ∈ dcl ∨ kv.1 = nm ∨ ∃ lk, kv.1 = nm ++ LOOKUP_SEP ++ lk := by
  rcases dfGetFilters_mem _ _ _ h with hgen | hdcl
  · obtain ⟨fl, hfl, lk, hlk, heq⟩ := dfGenPart_mem _ _ _ hgen
    have hfl2 : fl = (nm, lks) := by simpa using hfl
    subst hfl2
    refine Or.inr ?_
    have hk : kv.1 = filterNameFor nm lk := by
      rw [heq]
    rw [hk]
    unfold filterNameFor
    by_cases hex : (lk == "exact") = true
    · rw [if_pos hex]
      exact Or.inl rfl
    · rw [if_neg hex]
      exact Or.inr ⟨lk, rfl⟩
  · exact Or.inl hdcl

/-! Claim C6: invariants of the expansion loop. -/

theorem foldl_preserve {α β : Type} (P : α → Prop) (f : α → β → α)
    (l : List β) (hstep : ∀ st x, x ∈ l → P st → P (f st x)) :
    ∀ st, P st → P (l.foldl f st) := by
  induction l with
  | nil =>
    intro st h
    exact h
  | cons x rest ih =>
    intro st h
    rw [List.foldl_cons]
    exact ih (fun st' y hy hP => hstep st' y (List.mem_cons_of_mem _ hy) hP)
      _ (hstep st x (List.mem_cons_self _ _) h)

/-- The looked-up filter of an auto-filter name is its (auto) declaration. -/
theorem step_filter_is_declared (declared : List (String × Filter))
    (hnodup : (declared.map Prod.fst).Nodup)
    (st1 : List (String × Filter)) (name : String) (f : Filter)
    (hauto : name ∈ autoNamesOf declared) (hsub : st1.Sublist declared)
    (hlf : lookupFilter st1 name = some f) :
    (name, f) ∈ declared ∧ isAutoFilter f = true := by
  have hfd : (name, f) ∈ declared := hsub.mem (lookupFilter_mem _ _ _ hlf)
  refine ⟨hfd, ?_⟩
  obtain ⟨kv, hkv, hfst⟩ := List.mem_map.mp hauto
  have hkv2 := List.mem_filter.mp hkv
  have hl1 : lookupFilter declared name = some kv.2 := by
    have hmem2 : (name, kv.2) ∈ declared := by
      rw [← hfst]
      exact hkv2.1
    exact lookup_of_mem_nodup declared name kv.2 hmem2 hnodup
  have hl2 : lookupFilter declared name = some f :=
    lookup_of_mem_nodup declared name f hfd hnodup
  rw [hl1] at hl2
  injection hl2 with hq
  rw [← hq]
  exact hkv2.2

/-- Declared filters keep their value through the initial `get_filters`
construction of `base_filters`. -/
theorem dfGetFilters_lookup_declared (declared : List (String × Filter))
    (metaFields : List (String × List String)) (k : String) (v : Filter)
    (hnodup : (declared.map Prod.fst).Nodup) (hmem : (k, v) ∈ declared) :
    lookupFilter (dfGetFilters declared metaFields) k = some v := by
  have hl : lookupFilter declared k = some v :=
    lookup_of_mem_nodup _ _ _ hmem hnodup
  unfold dfGetFilters odUpdate
  refine lookup_foldl_odSet_of_writes _ _ k v ?_ (Or.inr ⟨(k, v), hmem, rfl⟩)
  intro kv hkv hk1
  have hmem2 : (k, kv.2) ∈ declared := by
    rw [← hk1]
    exact hkv
  have h3 := lookup_of_mem_nodup _ _ _ hmem2 hnodup
  rw [hl] at h3
  injection h3 with hq
  exact hq.symm

/-- One expansion step keeps a key whose current declared-copy and
base-filters value agree (used for RelatedFilter preservation with
`fv` related, and for a not-yet-processed plain AutoFilter). -/
theorem expandStep_keep (allLk : String → List String)
    (declared : List (String × Filter)) (m : String) (fv : Filter)
    (hnodup : (declared.map Prod.fst).Nodup)
    (hff : ∀ kv ∈ declared, isAutoFilter kv.2 = true → kv.2.field_name = kv.1)
    (st : List (String × Filter) × List (String × Filter)) (name : String)
    (hauto : name ∈ autoNamesOf declared)
    (hname : isRelatedFilter fv = true ∨ name ≠ m)
    (hsub : st.1.Sublist declared)
    (h1 : lookupFilter st.1 m = some fv)
    (h2 : lookupFilter st.2 m = some fv) :
    (expandStep allLk st name).1.Sublist declared ∧
      lookupFilter (expandStep allLk st name).1 m = some fv ∧
      lookupFilter (expandStep allLk st name).2 m = some fv := by
  unfold expandStep
  cases hlf : lookupFilter st.1 name with
  | none => exact ⟨hsub, h1, h2⟩
  | some f =>
    obtain ⟨hfd, hfauto⟩ :=
      step_filter_is_declared declared hnodup st.1 name f hauto hsub hlf
    have hfn : f.field_name = name := hff (name, f) hfd hfauto
    have hd_sub : (expandDcl st.1 name f).Sublist declared := by
      unfold expandDcl
      by_cases hr : isRelatedFilter f = true
      · rw [if_pos hr]
        exact hsub
      · rw [if_neg hr]
        exact (odDelete_sublist st.1 name).trans hsub
    have hd_lookup : lookupFilter (expandDcl st.1 name f) m = some fv := by
      unfold expandDcl
      by_cases hr : isRelatedFilter f = true
      · rw [if_pos hr]
        exact h1
      · rw [if_neg hr]
        have hnm : m ≠ name := by
          intro hh
          rcases hname with hrel | hne
          · rw [hh, hlf] at h1
            injection h1 with hq
            rw [hq] at hr
            exact hr hrel
          · exact hne hh.symm
        rw [lookup_odDelete_ne st.1 name m hnm]
        exact h1
    refine ⟨hd_sub, hd_lookup, ?_⟩
    show lookupFilter ((expandWrites allLk (expandDcl st.1 name f) f).foldl
      (fun b kv => odSet b (pyReplaceFirst kv.1 f.field_name name) kv.2)
      st.2) m = some fv
    rw [hfn, foldl_odSet_rep_self]
    refine lookup_foldl_odSet_preserve _ _ m fv ?_ h2
    intro kv hkv hk1
    have hdn : ((expandDcl st.1 name f).map Prod.fst).Nodup :=
      List.Nodup.sublist (List.Sublist.map Prod.fst hd_sub) hnodup
    exact dfGetFilters_val_at (expandDcl st.1 name f)
      [(f.field_name, effLookups allLk f)] m fv hd_lookup hdn kv hkv hk1

/-- Expansion retains every declared RelatedFilter verbatim, provided names
are unique and auto filters are declared on their own field. -/
theorem expand_preserves_related (allLk : String → List String)
    (declared : List (String × Filter))
    (metaFields : List (String × List String)) (m : String) (fR : Filter)
    (hnodup : (declared.map Prod.fst).Nodup)
    (hff : ∀ kv ∈ declared, isAutoFilter kv.2 = true → kv.2.field_name = kv.1)
    (hmem : (m, fR) ∈ declared) (hrel : isRelatedFilter fR = true) :
    lookupFilter (expand_auto_filters allLk declared metaFields) m =
      some fR := by
  have hinit1 : lookupFilter declared m = some fR :=
    lookup_of_mem_nodup _ _ _ hmem hnodup
  have hinit2 : lookupFilter (dfGetFilters declared metaFields) m = some fR :=
    dfGetFilters_lookup_declared declared metaFields m fR hnodup hmem
  have hfold := foldl_preserve
    (fun st => st.1.Sublist declared ∧ lookupFilter st.1 m = some fR ∧
      lookupFilter st.2 m = some fR)
    (expandStep allLk) (autoNamesOf declared)
    (fun st name hname hP =>
      expandStep_keep allLk declared m fR hnodup hff st name hname
        (Or.inl hrel) hP.1 hP.2.1 hP.2.2)
    (declared, dfGetFilters declared metaFields)
    ⟨List.Sublist.refl _, hinit1, hinit2⟩
  exact hfold.2.2

/-- After the plain AutoFilter `n` has been processed (deleted from the
declared copy, replaced in base filters), the remaining steps leave the
entry under `n` untouched: they never write the key `n`. -/
theorem expandStep_after_replace (allLk : String → List String)
    (declared : List (String × Filter)) (n : String) (G : Filter)
    (hnodup : (declared.map Prod.fst).Nodup)
    (hff : ∀ kv ∈ declared, isAutoFilter kv.2 = true → kv.2.field_name = kv.1)
    (hsep : containsSep n = false)
    (st : List (String × Filter) × List (String × Filter)) (name : String)
    (hauto : name ∈ autoNamesOf declared) (hne : name ≠ n)
    (hsub : st.1.Sublist declared)
    (h1 : lookupFilter st.1 n = none)
    (h2 : lookupFilter st.2 n = some G) :
    (expandStep allLk st name).1.Sublist declared ∧
      lookupFilter (expandStep allLk st name).1 n = none ∧
      lookupFilter (expandStep allLk st name).2 n = some G := by
  unfold expandStep
  cases hlf : lookupFilter st.1 name with
  | none => exact ⟨hsub, h1, h2⟩
  | some f =>
    obtain ⟨hfd, hfauto⟩ :=
      step_filter_is_declared declared hnodup st.1 name f hauto hsub hlf
    have hfn : f.field_name = name := hff (name, f) hfd hfauto
    have hd_sub1 : (expandDcl st.1 name f).Sublist st.1 := by
      unfold expandDcl
      by_cases hr : isRelatedFilter f = true
      · rw [if_pos hr]
      · rw [if_neg hr]
        exact odDelete_sublist st.1 name
    have hd_lookup : lookupFilter (expandDcl st.1 name f) n = none :=
      lookup_none_of_sublist _ _ n hd_sub1 h1
    refine ⟨hd_sub1.trans hsub, hd_lookup, ?_⟩
    show lookupFilter ((expandWrites allLk (expandDcl st.1 name f) f).foldl
      (fun b kv => odSet b (pyReplaceFirst kv.1 f.field_name name) kv.2)
      st.2) n = some G
    rw [hfn, foldl_odSet_rep_self]
    rw [lookup_foldl_odSet_skip _ _ n ?_]
    · exact h2
    · intro kv hkv
      have hkv2 : kv ∈ dfGetFilters (expandDcl st.1 name f)
          [(f.field_name, effLookups allLk f)] := hkv
      rcases dfGetFilters_single_keys (expandDcl st.1 name f) f.field_name
        (effLookups allLk f) kv hkv2 with hd | hk | ⟨lk, hk⟩
      · exact (lookup_none_iff _ n).mp hd_lookup kv hd
      · rw [hk, hfn]
        exact hne
      · rw [hk, hfn]
        intro hh
        exact ne_of_sep_free n name lk hsep hh.symm

/-- Processing the plain AutoFilter `n` itself deletes it from the declared
copy and overwrites `base_filters[n]` with the generated `exact` filter. -/
theorem expandStep_at_n (allLk : String → List String)
    (declared : List (String × Filter)) (n : String) (fA : Filter)
    (hsep : containsSep n = false) (hkind : fA.kind = FilterKind.auto)
    (hexact : "exact" ∈ effLookups allLk fA) (hfn : fA.field_name = n)
    (st : List (String × Filter) × List (String × Filter))
    (hsub : st.1.Sublist declared)
    (h1 : lookupFilter st.1 n = some fA) :
    (expandStep allLk st n).1.Sublist declared ∧
      lookupFilter (expandStep allLk st n).1 n = none ∧
      lookupFilter (expandStep allLk st n).2 n =
        some (genFilter n "exact") := by
  have hnotrel : isRelatedFilter fA = false := by
    unfold isRelatedFilter
    rw [hkind]
    rfl
  have hdcl : expandDcl st.1 n fA = odDelete st.1 n := by
    unfold expandDcl
    rw [hnotrel]
    rfl
  have hd_lookup : lookupFilter (expandDcl st.1 n fA) n = none := by
    rw [hdcl]
    exact lookup_odDelete_self st.1 n
  have hd_sub : (expandDcl st.1 n fA).Sublist declared := by
    rw [hdcl]
    exact (odDelete_sublist st.1 n).trans hsub
  -- every write at key `n` carries the generated exact filter
  have hall : ∀ kv ∈ expandWrites allLk (expandDcl st.1 n fA) fA,
      kv.1 = n → kv.2 = genFilter n "exact" := by
    intro kv hkv hk1
    have hkv2 : kv ∈ dfGetFilters (expandDcl st.1 n fA)
        [(fA.field_name, effLookups allLk fA)] := hkv
    rcases dfGetFilters_mem _ _ _ hkv2 with hgen | hdclm
    · obtain ⟨fl, hfl, lk, hlk, heq⟩ := dfGenPart_mem _ _ _ hgen
      have hfl2 : fl = (fA.field_name, effLookups allLk fA) := by
        simpa using hfl
      subst hfl2
      have hkey : filterNameFor fA.field_name lk = n := by
        rw [heq] at hk1
        exact hk1
      have hlkex : lk = "exact" := by
        by_cases hex : (lk == "exact") = true
        · exact beq_iff_eq.mp hex
        · exfalso
          unfold filterNameFor at hkey
          rw [if_neg hex, hfn] at hkey
          exact ne_of_sep_free n n lk hsep hkey.symm
      subst hlkex
      have hval : kv.2 = (match lookupFilter (expandDcl st.1 n fA)
          (filterNameFor fA.field_name "exact") with
        | some d => d
        | none => genFilter fA.field_name "exact") := by
        rw [heq]
      rw [show filterNameFor fA.field_name "exact" = n from by
        rw [filterNameFor, if_pos (by rfl), hfn], hd_lookup, hfn] at hval
      exact hval
    · exact absurd hk1 ((lookup_none_iff _ n).mp hd_lookup kv hdclm)
  -- an entry with key `n` is present among the writes
  have hgen_lookup : lookupFilter (dfGenPart (expandDcl st.1 n fA)
      [(fA.field_name, effLookups allLk fA)]) n =
      some (genFilter n "exact") := by
    unfold dfGenPart
    refine lookup_foldl_odSet_of_writes _ _ n (genFilter n "exact") ?_
      (Or.inr ?_)
    · intro kv hkv hk1
      obtain ⟨fl, hfl, hmm⟩ := List.mem_flatMap.mp hkv
      obtain ⟨lk2, hlk2, heq2⟩ := List.mem_map.mp hmm
      have hfl2 : fl = (fA.field_name, effLookups allLk fA) := by
        simpa using hfl
      subst hfl2
      have hkey : filterNameFor fA.field_name lk2 = n := by
        rw [← heq2] at hk1
        exact hk1
      have hlkex : lk2 = "exact" := by
        by_cases hex : (lk2 == "exact") = true
        · exact beq_iff_eq.mp hex
        · exfalso
          unfold filterNameFor at hkey
          rw [if_neg hex, hfn] at hkey
          exact ne_of_sep_free n n lk2 hsep hkey.symm
      subst hlkex
      have hval : kv.2 = (match lookupFilter (expandDcl st.1 n fA)
          (filterNameFor fA.field_name "exact") with
        | some d => d
        | none => genFilter fA.field_name "exact") := by
        rw [← heq2]
      rw [show filterNameFor fA.field_name "exact" = n from by
        rw [filterNameFor, if_pos (by rfl), hfn], hd_lookup, hfn] at hval
      exact hval
    · refine ⟨(filterNameFor fA.field_name "exact",
        match lookupFilter (expandDcl st.1 n fA)
          (filterNameFor fA.field_name "exact") with
        | some d => d
        | none => genFilter fA.field_name "exact"), ?_, ?_⟩
      · refine List.mem_flatMap.mpr ⟨(fA.field_name, effLookups allLk fA),
          List.mem_cons_self _ _, ?_⟩
        exact List.mem_map.mpr ⟨"exact", hexact, rfl⟩
      · rw [filterNameFor, if_pos (by rfl), hfn]
  have hws_lookup : lookupFilter (expandWrites allLk (expandDcl st.1 n fA) fA)
      n = some (genFilter n "exact") := by
    show lookupFilter (dfGetFilters (expandDcl st.1 n fA)
      [(fA.field_name, effLookups allLk fA)]) n = some (genFilter n "exact")
    unfold dfGetFilters odUpdate
    rw [lookup_foldl_odSet_skip _ _ n
      (fun kv hkv => (lookup_none_iff _ n).mp hd_lookup kv hkv)]
    exact hgen_lookup
  have hws_mem : (n, genFilter n "exact") ∈
      expandWrites allLk (expandDcl st.1 n fA) fA :=
    lookupFilter_mem _ _ _ hws_lookup
  -- assemble the step
  unfold expandStep
  rw [h1]
  refine ⟨hd_sub, hd_lookup, ?_⟩
  show lookupFilter ((expandWrites allLk (expandDcl st.1 n fA) fA).foldl
    (fun b kv => odSet b (pyReplaceFirst kv.1 fA.field_name n) kv.2)
    st.2) n = some (genFilter n "exact")
  rw [hfn, foldl_odSet_rep_self]
  exact lookup_foldl_odSet_of_writes _ _ n (genFilter n "exact") hall
    (Or.inr ⟨(n, genFilter n "exact"), hws_mem, rfl⟩)

/-- Expansion replaces a plain AutoFilter (declared on its own field, with an
`exact` lookup among its effective lookups, name free of the separator)
by the generated exact filter in the final mapping. -/
theorem expand_replaces_plain_auto (allLk : String → List String)
    (declared : List (String × Filter))
    (metaFields : List (String × List String)) (n : String) (fA : Filter)
    (hnodup : (declared.map Prod.fst).Nodup)
    (hff : ∀ kv ∈ declared, isAutoFilter kv.2 = true → kv.2.field_name = kv.1)
    (hmem : (n, fA) ∈ declared) (hkind : fA.kind = FilterKind.auto)
    (hexact : "exact" ∈ effLookups allLk fA)
    (hsep : containsSep n = false) :
    lookupFilter (expand_auto_filters allLk declared metaFields) n =
      some (genFilter n "exact") := by
  have hauto : isAutoFilter fA = true := by
    unfold isAutoFilter
    rw [hkind]
    rfl
  have hfn : fA.field_name = n := hff (n, fA) hmem hauto
  have hn_mem : n ∈ autoNamesOf declared :=
    List.mem_map.mpr ⟨(n, fA), List.mem_filter.mpr ⟨hmem, hauto⟩, rfl⟩
  have hnodup_auto : (autoNamesOf declared).Nodup :=
    List.Nodup.sublist (List.Sublist.map Prod.fst (List.filter_sublist _))
      hnodup
  obtain ⟨L1, L2, hsplit⟩ := List.append_of_mem hn_mem
  have hnd2 : (L1 ++ n :: L2).Nodup := hsplit ▸ hnodup_auto
  have hnotL1 : n ∉ L1 := by
    intro hn1
    exact (List.nodup_append.mp hnd2).2.2 hn1 (List.mem_cons_self _ _)
  have hnotL2 : n ∉ L2 :=
    (List.nodup_cons.mp (List.nodup_append.mp hnd2).2.1).1
  have hmemL1 : ∀ name ∈ L1, name ∈ autoNamesOf declared := by
    intro name hname
    rw [hsplit]
    exact List.mem_append_left _ hname
  have hmemL2 : ∀ name ∈ L2, name ∈ autoNamesOf declared := by
    intro name hname
    rw [hsplit]
    exact List.mem_append_right _ (List.mem_cons_of_mem _ hname)
  have hinit1 : lookupFilter declared n = some fA :=
    lookup_of_mem_nodup _ _ _ hmem hnodup
  have hinit2 : lookupFilter (dfGetFilters declared metaFields) n = some fA :=
    dfGetFilters_lookup_declared declared metaFields n fA hnodup hmem
  -- phase 1: the steps before `n` keep the AutoFilter in place
  have hP1 := foldl_preserve
    (fun st => st.1.Sublist declared ∧ lookupFilter st.1 n = some fA ∧
      lookupFilter st.2 n = some fA)
    (expandStep allLk) L1
    (fun st name hname hP =>
      expandStep_keep allLk declared n fA hnodup hff st name
        (hmemL1 name hname)
        (Or.inr (fun hh => hnotL1 (hh ▸ hname)))
        hP.1 hP.2.1 hP.2.2)
    (declared, dfGetFilters declared metaFields)
    ⟨List.Sublist.refl _, hinit1, hinit2⟩
  -- phase 2: the step at `n` performs the replacement
  have hP2 := expandStep_at_n allLk declared n fA hsep hkind hexact hfn
    (L1.foldl (expandStep allLk) (declared, dfGetFilters declared metaFields))
    hP1.1 hP1.2.1
  -- phase 3: the steps after `n` never touch the key `n`
  have hP3 := foldl_preserve
    (fun st => st.1.Sublist declared ∧ lookupFilter st.1 n = none ∧
      lookupFilter st.2 n = some (genFilter n "exact"))
    (expandStep allLk) L2
    (fun st name hname hP =>
      expandStep_after_replace allLk declared n (genFilter n "exact") hnodup
        hff hsep st name (hmemL2 name hname)
        (fun hh => hnotL2 (hh ▸ hname))
        hP.1 hP.2.1 hP.2.2)
    (expandStep allLk
      (L1.foldl (expandStep allLk) (declared, dfGetFilters declared metaFields))
      n)
    ⟨hP2.1, hP2.2.1, hP2.2.2⟩
  show lookupFilter ((autoNamesOf declared).foldl (expandStep allLk)
    (declared, dfGetFilters declared metaFields)).2 n =
    some (genFilter n "exact")
  rw [hsplit, List.foldl_append, List.foldl_cons]
  exact hP3.2.2

/-- C6 counterexample: the claim fails on the code in two ways. A plain
AutoFilter `x` with lookups `[contains]` (no `exact`) generates only
`x__contains`, so the AutoFilter declaration itself remains in the final
mapping under `x`. And for a RelatedFilter declared as `note__in` next to
an AutoFilter `note` on field `in` with lookup `in`, the generated filter
name `in__in` is renamed by `replace(field_name, name, 1)` to `note__in`
and written over the RelatedFilter, whose own rewrite is renamed away to
`note__note` — the pre-existing RelatedFilter is overwritten by a
generated filter bearing its name. -/
theorem c6_counterexample :
    lookupFilter (expand_auto_filters allLk0 declaredA []) "x" = some autoX ∧
      isAutoFilter autoX = true ∧
      lookupFilter (expand_auto_filters allLk0 declaredB []) "note__in" =
        some (genFilter "in" "in") ∧
      genFilter "in" "in" ≠ relNoteIn ∧
      isRelatedFilter relNoteIn = true := by
  refine ⟨rfl, rfl, rfl, by decide, rfl⟩

/-- C6 (amended): under the metaclass's working assumptions — unique declared
names and every auto filter declared on its own field — schema expansion
(a) replaces a plain AutoFilter whose effective lookups include `exact`
and whose name does not embed the separator by its generated exact filter
(so no AutoFilter declaration survives under that name), and (b) retains
every declared RelatedFilter verbatim, never overwriting it. Without
those assumptions the claim fails (see the counterexample). -/
theorem c6_expansion_amended (allLk : String → List String)
    (declared : List (String × Filter))
    (metaFields : List (String × List String))
    (hnodup : (declared.map Prod.fst).Nodup)
    (hff : ∀ kv ∈ declared, isAutoFilter kv.2 = true →
      kv.2.field_name = kv.1) :
    (∀ n fA, (n, fA) ∈ declared → fA.kind = FilterKind.auto →
      "exact" ∈ effLookups allLk fA → containsSep n = false →
      lookupFilter (expand_auto_filters allLk declared metaFields) n =
          some (genFilter n "exact") ∧
        isAutoFilter (genFilter n "exact") = false) ∧
      (∀ m fR, (m, fR) ∈ declared → isRelatedFilter fR = true →
        lookupFilter (expand_auto_filters allLk declared metaFields) m =
          some fR) := by
  constructor
  · intro n fA hmem hkind hexact hsep
    exact ⟨expand_replaces_plain_auto allLk declared metaFields n fA hnodup
      hff hmem hkind hexact hsep, rfl⟩
  · intro m fR hmem hrel
    exact expand_preserves_related allLk declared metaFields m fR hnodup hff
      hmem hrel

/-- C6 witness: in the schema `declaredW` the AutoFilter `x` (lookups
`[exact]`) is replaced by its generated exact filter while the
RelatedFilter `r` is retained verbatim. -/
theorem c6_witness :
    (lookupFilter (expand_auto_filters allLk0 declaredW []) "x" =
        some (genFilter "x" "exact") ∧
      isAutoFilter (genFilter "x" "exact") = false) ∧
      lookupFilter (expand_auto_filters allLk0 declaredW []) "r" =
        some (mkRelatedF "r" 0) := by
  have h := c6_expansion_amended allLk0 declaredW [] (by decide) (by decide)
  exact ⟨h.1 "x" (mkAutoF "x" (.list ["exact"])) (by decide) (by decide)
    (by decide) (by decide),
    h.2 "r" (mkRelatedF "r" 0) (by decide) (by decide)⟩

end RFF
